import Mathlib

/-!
Verification development for the pymedB repository: a shallow embedding of
its pagination-and-rate-limited retrieval engine, the open-access download
link resolver, and the XML-to-entity mapping layer, together with theorems
settling the stated behavioural claims.

All numeric values are modelled as unbounded integers, matching Python
integers. Network effects are abstracted by a server oracle mapping each
request to its response; exceptions are modelled with Except, and functions
whose Python originals may diverge are given explicit fuel and return
Option.
-/

namespace Pymed

/-! ## Pagination engine

Shallow embedding of PubMedClientBase.get_article_ids
(src/pymedB/pubmed_client_base.py, lines 101-162; the identical code also
appears as PubMed._get_article_ids in src/pymed/api.py, lines 221-282).

A search request carries the retstart parameter (absent on the first page,
matching the Python dict that initially has no retstart key) and the retmax
parameter actually sent. The server oracle maps each request to an
esearch response; its count, retmax and idlist fields model
esearchresult.count, esearchresult.retmax and esearchresult.idlist. -/

structure Request where
  retstart : Option Int
  retmax : Int
deriving DecidableEq, Repr

structure SearchResponse where
  count : Int
  retmax : Int
  idlist : List String
deriving DecidableEq, Repr

/-- The initial value of parameters["retmax"]: 50000, clamped down to
max_results whenever max_results is smaller (source lines 120-124). -/
def firstRetmaxParam (max_results : Int) : Int :=
  if max_results < 50000 then max_results else 50000

/-- The first esearch request: no retstart key, retmax as clamped. -/
def firstRequest (max_results : Int) : Request :=
  ⟨none, firstRetmaxParam max_results⟩

/-- The total result count reported on the first page
(int(response.get("esearchresult").get("count")), source line 133). -/
def totalAvailable (server : Request → SearchResponse) (max_results : Int) : Int :=
  (server (firstRequest max_results)).count

/-- The while loop of get_article_ids (source lines 141-159). State:
total result count, effective max, retrieved_count, parameters["retmax"],
accumulated ids, log of requests issued so far. Fuel bounds the number of
iterations; none models the loop not having terminated within the fuel. -/
def searchLoop (server : Request → SearchResponse) :
    Nat → Int → Int → Int → Int → List String → List Request →
    Option (List Request × List String × Int)
  | 0, total, maxr, rc, _param, ids, log =>
      if rc < total ∧ rc < maxr then none else some (log, ids, rc)
  | fuel + 1, total, maxr, rc, param, ids, log =>
      if rc < total ∧ rc < maxr then
        let param' := if maxr - rc < param then maxr - rc else param
        let req : Request := ⟨some rc, param'⟩
        let resp := server req
        searchLoop server fuel total maxr (rc + resp.retmax) param'
          (ids ++ resp.idlist) (log ++ [req])
      else some (log, ids, rc)

/-- Shallow embedding of get_article_ids: first request, bookkeeping from
the first response, special-casing of max_results == -1, then the loop.
Returns the log of issued requests together with the id list, or none when
the loop does not terminate within the given fuel. -/
def get_article_ids (server : Request → SearchResponse) (fuel : Nat)
    (max_results : Int) : Option (List Request × List String) :=
  let resp0 := server (firstRequest max_results)
  let maxr := if max_results = -1 then resp0.count else max_results
  match searchLoop server fuel resp0.count maxr resp0.retmax
      (firstRetmaxParam max_results) resp0.idlist [firstRequest max_results] with
  | none => none
  | some (log, ids, _) => some (log, ids)

/-- Sum of the retmax values reported by the server on a list of requests. -/
def sumRetmax (server : Request → SearchResponse) (l : List Request) : Int :=
  (l.map (fun r => (server r).retmax)).sum

/-- A server that always reports one available result but returns zero ids
and reports retmax = 0 on every page: a stalling source. -/
def stallServer : Request → SearchResponse := fun _ => ⟨1, 0, []⟩

/-- A server that always reports two available results and returns one id
per page. -/
def onePerPageServer : Request → SearchResponse := fun _ => ⟨2, 1, ["x"]⟩

/-- A server reporting an empty result set. -/
def emptyServer : Request → SearchResponse := fun _ => ⟨0, 0, []⟩

example : get_article_ids emptyServer 1 5 = some ([firstRequest 5], []) := by decide

example : get_article_ids onePerPageServer 3 10 =
    some ([⟨none, 10⟩, ⟨some 1, 9⟩], ["x", "x"]) := by decide

example : get_article_ids stallServer 4 5 = none := by decide

example : get_article_ids emptyServer 1 (-1) = some ([⟨none, -1⟩], []) := by decide

/-- Invariant of the pagination loop: if every response reports retmax equal
to the length of its idlist (an honest source) and never reports more than
the retmax that was requested, then the accumulated id count equals
retrieved_count, retrieved_count never exceeds the effective cap, and on
exit retrieved_count has reached the total or the cap. -/
theorem searchLoop_bounds (server : Request → SearchResponse)
    (honest : ∀ req, ((server req).idlist.length : Int) = (server req).retmax)
    (bounded : ∀ req, 0 ≤ req.retmax → (server req).retmax ≤ req.retmax) :
    ∀ (fuel : Nat) (total maxr rc param : Int) (ids : List String)
      (log log' : List Request) (ids' : List String) (rc' : Int),
      (ids.length : Int) = rc → rc ≤ maxr → 0 ≤ param →
      searchLoop server fuel total maxr rc param ids log = some (log', ids', rc') →
      (ids'.length : Int) = rc' ∧ rc' ≤ maxr ∧ (total ≤ rc' ∨ maxr ≤ rc') := by
  intro fuel
  induction fuel with
  | zero =>
    intro total maxr rc param ids log log' ids' rc' hlen hle _hpar hrun
    simp only [searchLoop] at hrun
    split at hrun
    · exact absurd hrun (by simp)
    · rename_i hguard
      obtain ⟨rfl, rfl, rfl⟩ : log = log' ∧ ids = ids' ∧ rc = rc' := by
        simpa using hrun
      exact ⟨hlen, hle, by omega⟩
  | succ n ih =>
    intro total maxr rc param ids log log' ids' rc' hlen hle hpar hrun
    simp only [searchLoop] at hrun
    split at hrun
    · rename_i hguard
      have hpar' : 0 ≤ (if maxr - rc < param then maxr - rc else param) ∧
          (if maxr - rc < param then maxr - rc else param) ≤ maxr - rc := by
        split <;> omega
      refine ih total maxr _ _ _ _ log' ids' rc' ?_ ?_ hpar'.1 hrun
      · push_cast [List.length_append]
        rw [honest]
        omega
      · have := bounded ⟨some rc, if maxr - rc < param then maxr - rc else param⟩ hpar'.1
        simp only at this
        omega
    · rename_i hguard
      obtain ⟨rfl, rfl, rfl⟩ : log = log' ∧ ids = ids' ∧ rc = rc' := by
        simpa using hrun
      exact ⟨hlen, hle, by omega⟩

/-- Claim C1: for every max_results at least 0 and every honest,
never-overreporting server, whenever get_article_ids terminates it returns
at most max_results identifiers and at least
min(max_results, total_available), where total_available is the count
reported on the first page. -/
theorem get_article_ids_bounds (server : Request → SearchResponse) (fuel : Nat)
    (max_results : Int) (log : List Request) (ids : List String)
    (hmax : 0 ≤ max_results)
    (honest : ∀ req, ((server req).idlist.length : Int) = (server req).retmax)
    (bounded : ∀ req, 0 ≤ req.retmax → (server req).retmax ≤ req.retmax)
    (hrun : get_article_ids server fuel max_results = some (log, ids)) :
    (ids.length : Int) ≤ max_results ∧
      min max_results (totalAvailable server max_results) ≤ (ids.length : Int) := by
  simp only [get_article_ids] at hrun
  have hne : ¬(max_results = -1) := by omega
  rw [if_neg hne] at hrun
  rcases hloop : searchLoop server fuel (server (firstRequest max_results)).count
      max_results (server (firstRequest max_results)).retmax
      (firstRetmaxParam max_results) (server (firstRequest max_results)).idlist
      [firstRequest max_results] with _ | ⟨log', ids', rc'⟩
  · rw [hloop] at hrun
    exact absurd hrun (by simp)
  · rw [hloop] at hrun
    have hpar0 : 0 ≤ firstRetmaxParam max_results := by
      simp only [firstRetmaxParam]
      split <;> omega
    have hclamp : firstRetmaxParam max_results ≤ max_results := by
      simp only [firstRetmaxParam]
      split <;> omega
    have hfirst : (server (firstRequest max_results)).retmax ≤ max_results := by
      have hb := bounded (firstRequest max_results) hpar0
      have hr : (firstRequest max_results).retmax = firstRetmaxParam max_results := rfl
      rw [hr] at hb
      omega
    have hmain := searchLoop_bounds server honest bounded fuel
      (server (firstRequest max_results)).count max_results
      (server (firstRequest max_results)).retmax (firstRetmaxParam max_results)
      (server (firstRequest max_results)).idlist [firstRequest max_results]
      log' ids' rc' (honest _) hfirst hpar0 hloop
    obtain ⟨hl, hi⟩ : log' = log ∧ ids' = ids := by simpa using hrun
    rw [← hi]
    simp only [totalAvailable]
    omega

/-- Witness for claim C1 at a concrete server and max_results = 5. -/
theorem get_article_ids_bounds_witness :
    get_article_ids emptyServer 1 5 = some ([firstRequest 5], []) ∧
      ((([] : List String).length : Int) ≤ 5 ∧
        min (5 : Int) (totalAvailable emptyServer 5) ≤ (([] : List String).length : Int)) :=
  ⟨by decide,
    get_article_ids_bounds emptyServer 1 5 [firstRequest 5] [] (by norm_num)
      (fun req => by simp [emptyServer])
      (fun req h => by simpa [emptyServer] using h)
      (by decide)⟩

/-- Invariant of the pagination loop when total and effective cap agree:
with an honest server whose pages never run past the end of the stable
result set, the loop exits exactly when retrieved_count equals the total. -/
theorem searchLoop_exact (server : Request → SearchResponse) (T : Int)
    (honest : ∀ req, ((server req).idlist.length : Int) = (server req).retmax)
    (hno : ∀ req, (server req).retmax ≤ max 0 (T - req.retstart.getD 0)) :
    ∀ (fuel : Nat) (rc param : Int) (ids : List String)
      (log log' : List Request) (ids' : List String) (rc' : Int),
      (ids.length : Int) = rc → rc ≤ T →
      searchLoop server fuel T T rc param ids log = some (log', ids', rc') →
      (ids'.length : Int) = rc' ∧ rc' = T := by
  intro fuel
  induction fuel with
  | zero =>
    intro rc param ids log log' ids' rc' hlen hle hrun
    simp only [searchLoop] at hrun
    split at hrun
    · exact absurd hrun (by simp)
    · rename_i hguard
      obtain ⟨rfl, rfl, rfl⟩ : log = log' ∧ ids = ids' ∧ rc = rc' := by
        simpa using hrun
      exact ⟨hlen, by omega⟩
  | succ n ih =>
    intro rc param ids log log' ids' rc' hlen hle hrun
    simp only [searchLoop] at hrun
    split at hrun
    · rename_i hguard
      have hstep := hno ⟨some rc, if T - rc < param then T - rc else param⟩
      simp only [Option.getD_some] at hstep
      refine ih _ _ _ _ log' ids' rc' ?_ ?_ hrun
      · push_cast [List.length_append]
        rw [honest]
        omega
      · omega
    · rename_i hguard
      obtain ⟨rfl, rfl, rfl⟩ : log = log' ∧ ids = ids' ∧ rc = rc' := by
        simpa using hrun
      exact ⟨hlen, by omega⟩

/-- Claim C2: with max_results = -1, an honest server that reports a stable
nonnegative total T on every page and never returns ids past the end of the
result set, whenever get_article_ids terminates it returns exactly T
identifiers. -/
theorem get_article_ids_unbounded_exact (server : Request → SearchResponse)
    (fuel : Nat) (T : Int) (log : List Request) (ids : List String)
    (hT : 0 ≤ T)
    (hstable : ∀ req, (server req).count = T)
    (honest : ∀ req, ((server req).idlist.length : Int) = (server req).retmax)
    (hno : ∀ req, (server req).retmax ≤ max 0 (T - req.retstart.getD 0))
    (hrun : get_article_ids server fuel (-1) = some (log, ids)) :
    (ids.length : Int) = T := by
  simp only [get_article_ids, if_true] at hrun
  rw [hstable] at hrun
  rcases hloop : searchLoop server fuel T T (server (firstRequest (-1))).retmax
      (firstRetmaxParam (-1)) (server (firstRequest (-1))).idlist
      [firstRequest (-1)] with _ | ⟨log', ids', rc'⟩
  · rw [hloop] at hrun
    exact absurd hrun (by simp)
  · rw [hloop] at hrun
    have hfirst : (server (firstRequest (-1))).retmax ≤ T := by
      have := hno (firstRequest (-1))
      have hr : (firstRequest (-1)).retstart = none := rfl
      rw [hr] at this
      simp only [Option.getD_none] at this
      omega
    have hmain := searchLoop_exact server T honest hno fuel
      (server (firstRequest (-1))).retmax (firstRetmaxParam (-1))
      (server (firstRequest (-1))).idlist [firstRequest (-1)]
      log' ids' rc' (honest _) hfirst hloop
    obtain ⟨hl, hi⟩ : log' = log ∧ ids' = ids := by simpa using hrun
    rw [← hi]
    omega

/-- Witness for claim C2 at a concrete server with total T = 0. -/
theorem get_article_ids_unbounded_exact_witness :
    get_article_ids emptyServer 1 (-1) = some ([⟨none, -1⟩], []) ∧
      ((([] : List String).length : Int) = 0) :=
  ⟨by decide,
    get_article_ids_unbounded_exact emptyServer 1 0 [⟨none, -1⟩] [] le_rfl
      (fun req => by simp [emptyServer])
      (fun req => by simp [emptyServer])
      (fun req => by simp [emptyServer])
      (by decide)⟩

/-- On the stalling server the loop state never changes: retrieved_count
stays 0, so the guard stays true and the loop consumes all fuel. -/
theorem searchLoop_stall (fuel : Nat) :
    ∀ (ids : List String) (log : List Request),
      searchLoop stallServer fuel 1 5 0 5 ids log = none := by
  induction fuel with
  | zero =>
    intro ids log
    simp only [searchLoop]
    rw [if_pos (by norm_num)]
  | succ n ih =>
    intro ids log
    simp only [searchLoop, stallServer]
    rw [if_pos (by norm_num)]
    norm_num
    exact ih _ _

/-- Claim C3 fails on the code: against a source that reports count = 1 but
retmax = 0 with an empty idlist on every page, the pagination loop makes
zero progress forever. No amount of fuel makes get_article_ids return, and
the code raises no ProtocolError: it contains no zero-progress bound at
all. -/
theorem get_article_ids_stall_diverges (fuel : Nat) :
    get_article_ids stallServer fuel 5 = none := by
  simp only [get_article_ids, stallServer, firstRequest, firstRetmaxParam]
  norm_num
  rw [searchLoop_stall fuel [] [⟨none, 5⟩]]

/-- The offset invariant inside the pagination loop: if retrieved_count
equals the sum of the retmax values reported on the logged requests and
every logged request after the first already carries retstart equal to the
reported-retmax sum of the requests before it, both facts still hold for
the final log. -/
theorem searchLoop_retstart (server : Request → SearchResponse) :
    ∀ (fuel : Nat) (total maxr rc param : Int) (ids : List String)
      (log log' : List Request) (ids' : List String) (rc' : Int),
      rc = sumRetmax server log →
      (∀ i, (h : i + 1 < log.length) →
        (log.get ⟨i + 1, h⟩).retstart = some (sumRetmax server (log.take (i + 1)))) →
      searchLoop server fuel total maxr rc param ids log = some (log', ids', rc') →
      ∀ i, (h : i + 1 < log'.length) →
        (log'.get ⟨i + 1, h⟩).retstart = some (sumRetmax server (log'.take (i + 1))) := by
  intro fuel
  induction fuel with
  | zero =>
    intro total maxr rc param ids log log' ids' rc' hsum hprior hrun
    simp only [searchLoop] at hrun
    split at hrun
    · exact absurd hrun (by simp)
    · obtain ⟨rfl, -, -⟩ : log = log' ∧ ids = ids' ∧ rc = rc' := by simpa using hrun
      exact hprior
  | succ n ih =>
    intro total maxr rc param ids log log' ids' rc' hsum hprior hrun
    simp only [searchLoop] at hrun
    split at hrun
    · refine ih total maxr _ _ _ _ log' ids' rc' ?_ ?_ hrun
      · simp only [sumRetmax, List.map_append, List.sum_append, List.map_cons,
          List.map_nil, List.sum_cons, List.sum_nil]
        rw [← sumRetmax, ← hsum]
        ring
      · intro i h
        rcases lt_or_ge (i + 1) log.length with hlt | hge
        · rw [List.get_append (i + 1) hlt, List.take_append_of_le_length (by omega)]
          exact hprior i hlt
        · have hlen : i + 1 = log.length := by
            have := h
            simp only [List.length_append, List.length_cons, List.length_nil] at this
            omega
          have hget : ((log ++ [(⟨some rc,
              if maxr - rc < param then maxr - rc else param⟩ : Request)]).get
              ⟨i + 1, h⟩) = ⟨some rc,
              if maxr - rc < param then maxr - rc else param⟩ := by
            exact List.get_of_append rfl hlen.symm
          rw [hget, List.take_append_of_le_length (by omega), hlen, List.take_length,
            ← hsum]
    · obtain ⟨rfl, -, -⟩ : log = log' ∧ ids = ids' ∧ rc = rc' := by simpa using hrun
      exact hprior

/-- Claim C5: for every page after the first that get_article_ids issues,
the retstart parameter sent with that request equals the sum of the retmax
values the server actually reported on all prior pages. -/
theorem get_article_ids_retstart_invariant (server : Request → SearchResponse)
    (fuel : Nat) (max_results : Int) (log : List Request) (ids : List String)
    (hrun : get_article_ids server fuel max_results = some (log, ids)) :
    ∀ i, (h : i + 1 < log.length) →
      (log.get ⟨i + 1, h⟩).retstart = some (sumRetmax server (log.take (i + 1))) := by
  simp only [get_article_ids] at hrun
  rcases hloop : searchLoop server fuel (server (firstRequest max_results)).count
      (if max_results = -1 then (server (firstRequest max_results)).count else max_results)
      (server (firstRequest max_results)).retmax (firstRetmaxParam max_results)
      (server (firstRequest max_results)).idlist
      [firstRequest max_results] with _ | ⟨log', ids', rc'⟩
  · rw [hloop] at hrun
    exact absurd hrun (by simp)
  · rw [hloop] at hrun
    obtain ⟨hl, -⟩ : log' = log ∧ ids' = ids := by simpa using hrun
    have hsum0 : (server (firstRequest max_results)).retmax =
        sumRetmax server [firstRequest max_results] := by
      simp [sumRetmax]
    have hmain := searchLoop_retstart server fuel
      (server (firstRequest max_results)).count
      (if max_results = -1 then (server (firstRequest max_results)).count else max_results)
      (server (firstRequest max_results)).retmax (firstRetmaxParam max_results)
      (server (firstRequest max_results)).idlist
      [firstRequest max_results] log' ids' rc' hsum0
      (by intro i h; simp at h) hloop
    rw [← hl]
    exact hmain

/-- Witness for claim C5: a run that issues two requests; the second
request carries retstart = 1, the retmax reported on the first page. -/
theorem get_article_ids_retstart_invariant_witness :
    get_article_ids onePerPageServer 3 10 =
        some ([⟨none, 10⟩, ⟨some 1, 9⟩], ["x", "x"]) ∧
      (([⟨none, 10⟩, ⟨some 1, 9⟩] : List Request).get ⟨1, by decide⟩).retstart =
        some (sumRetmax onePerPageServer (([⟨none, 10⟩, ⟨some 1, 9⟩] : List Request).take 1)) :=
  ⟨by decide,
    get_article_ids_retstart_invariant onePerPageServer 3 10
      [⟨none, 10⟩, ⟨some 1, 9⟩] ["x", "x"] (by decide) 0 (by decide)⟩

/-! ## Rate limiter

Shallow embedding of PubMedClientBase._exceeded_rate_limit and the
rate-limiting portion of PubMedClientBase._get
(src/pymedB/pubmed_client_base.py, lines 47-98). Timestamps are integers in
microseconds, the resolution of datetime; self._rateLimit is 3. -/

/-- Number of microseconds in the 1-second pruning window. -/
def oneSecond : Int := 1000000

/-- The fixed request limit self._rateLimit. -/
def rateLimit : Int := 3

/-- The pruning step of _exceeded_rate_limit (source line 95): keep only
timestamps strictly newer than one second before now. -/
def pruneWindow (now : Int) (reqs : List Int) : List Int :=
  reqs.filter (fun t => decide (now - oneSecond < t))

/-- The check of _exceeded_rate_limit (source line 98) applied to the
pruned list: blocked when strictly more than rateLimit timestamps remain. -/
def exceeded_rate_limit (now : Int) (reqs : List Int) : Bool :=
  decide (rateLimit < ((pruneWindow now reqs).length : Int))

/-- Number of tracked timestamps inside the trailing 1-second window at a
given instant. -/
def windowCount (now : Int) (reqs : List Int) : Nat :=
  (pruneWindow now reqs).length

/-- One dispatch through _get at time t: the busy-wait loop admits the
request only when _exceeded_rate_limit is false on the pruned list, and the
dispatch then appends its own timestamp (source lines 66-79). Returns the
updated timestamp list, or none when the request is not admitted at t. -/
def dispatch (t : Int) (reqs : List Int) : Option (List Int) :=
  if exceeded_rate_limit t reqs then none
  else some (pruneWindow t reqs ++ [t])

/-- A sequence of dispatches at the given times, all admitted. -/
def runDispatches : List Int → List Int → Option (List Int)
  | [], reqs => some reqs
  | t :: ts, reqs =>
      match dispatch t reqs with
      | none => none
      | some reqs' => runDispatches ts reqs'

/-- Claim C4 fails on the code: four dispatches 100 microseconds apart are
all admitted, after which four timestamps lie inside the trailing 1-second
window, exceeding N = 3. The check blocks only when strictly more than N
timestamps remain before the new timestamp is appended. -/
theorem rate_limit_admits_four :
    runDispatches [0, 100, 200, 300] [] = some [0, 100, 200, 300] ∧
      windowCount 300 [0, 100, 200, 300] = 4 ∧
      ¬(windowCount 300 [0, 100, 200, 300] ≤ 3) := by decide

/-- Claim C4 as amended: at every admitted dispatch, after pruning and
appending the new timestamp the tracked list has at most N + 1 = 4
timestamps, so at most 4 dispatch timestamps can lie within any trailing
1-second window. -/
theorem dispatch_window_le_four (t : Int) (reqs reqs' : List Int)
    (h : dispatch t reqs = some reqs') :
    reqs'.length ≤ 4 ∧ ∀ now, windowCount now reqs' ≤ 4 := by
  simp only [dispatch] at h
  split at h
  · exact absurd h (by simp)
  · rename_i hadm
    obtain rfl : pruneWindow t reqs ++ [t] = reqs' := by simpa using h
    have hlen : (pruneWindow t reqs).length ≤ 3 := by
      simp only [exceeded_rate_limit, rateLimit, decide_eq_true_eq, not_lt] at hadm
      exact_mod_cast hadm
    constructor
    · simp only [List.length_append, List.length_cons, List.length_nil]
      omega
    · intro now
      have hfil : windowCount now (pruneWindow t reqs ++ [t]) ≤
          (pruneWindow t reqs ++ [t]).length := by
        simpa [windowCount, pruneWindow] using
          List.length_filter_le _ (pruneWindow t reqs ++ [t])
      simp only [List.length_append, List.length_cons, List.length_nil] at hfil
      omega

/-- Witness for the amended claim C4 at a concrete dispatch. -/
theorem dispatch_window_le_four_witness :
    dispatch 0 [] = some [0] ∧ windowCount 0 [0] ≤ 4 :=
  ⟨by decide, (dispatch_window_le_four 0 [] [0] (by decide)).2 0⟩

/-! ## XML documents

A minimal model of xml.etree.ElementTree elements: a tag, an attribute
list, the text directly held by the element, and the child elements in
document order. -/

inductive Xml : Type where
  | elem : String → List (String × String) → Option String → List Xml → Xml
deriving Repr

/-- The tag of an element. -/
def Xml.tag : Xml → String
  | .elem t _ _ _ => t

/-- The attributes of an element (Element.attrib). -/
def Xml.attrs : Xml → List (String × String)
  | .elem _ a _ _ => a

/-- The text directly held by an element (Element.text). -/
def Xml.text : Xml → Option String
  | .elem _ _ tx _ => tx

/-- The child elements of an element. -/
def Xml.children : Xml → List Xml
  | .elem _ _ _ c => c

/-- Attribute lookup (Element.attrib.get / Element.attrib[...]). -/
def Xml.attr (x : Xml) (name : String) : Option String :=
  (x.attrs.find? (fun kv => kv.1 == name)).map Prod.snd

mutual

/-- First match for a predicate in the subtree rooted at an element,
checking the element itself first and then its descendants in document
order. -/
def findSelfOrBelow (p : Xml → Bool) : Xml → Option Xml
  | .elem t a tx cs =>
      if p (.elem t a tx cs) then some (.elem t a tx cs)
      else findBelowList p cs

/-- First match for a predicate among the subtrees of a list of elements,
in document order. -/
def findBelowList (p : Xml → Bool) : List Xml → Option Xml
  | [] => none
  | c :: cs =>
      match findSelfOrBelow p c with
      | some r => some r
      | none => findBelowList p cs

end

/-- Element.find with a ".//" descendant path: first match among all
elements strictly below the given one, in document order. -/
def Xml.findDesc (x : Xml) (p : Xml → Bool) : Option Xml :=
  findBelowList p x.children

/-- Element.find with a plain child tag path: first direct child carrying
the tag. -/
def Xml.findChild (x : Xml) (tag : String) : Option Xml :=
  x.children.find? (fun c => c.tag == tag)

/-- Predicate for the path ".//record". -/
def isRecord (c : Xml) : Bool := c.tag == "record"

/-- Predicate for the path ".//link[@format=fmt]". -/
def isLink (fmt : String) (c : Xml) : Bool :=
  c.tag == "link" && c.attr "format" == some fmt

/-! ## Download link resolver

Shallow embedding of PMC.get_article_download_url
(src/pymedB/pmc_client.py, lines 27-48; src/pymed/api.py lines 284-308 and
src/pymedB/pubmed_client.py lines 113-134 are the same logic with the
format list fixed to pdf then tgz). The network call and XML parsing are
abstracted: the function receives the result of extract_xml applied to the
response body, an Option Xml that is none when the body did not parse. -/

/-- Python exceptions that the embedded functions can raise. -/
inductive PyErr : Type where
  | attributeError
  | keyError
  | typeError
  | valueError
deriving DecidableEq, Repr

instance {ε α : Type} [DecidableEq ε] [DecidableEq α] : DecidableEq (Except ε α) := fun a b =>
  match a, b with
  | .ok x, .ok y =>
      if h : x = y then isTrue (congrArg Except.ok h)
      else isFalse (fun hc => h (Except.ok.inj hc))
  | .error x, .error y =>
      if h : x = y then isTrue (congrArg Except.error h)
      else isFalse (fun hc => h (Except.error.inj hc))
  | .ok _, .error _ => isFalse (fun hc => Except.noConfusion hc)
  | .error _, .ok _ => isFalse (fun hc => Except.noConfusion hc)

/-- The for loop over accepted_formats (pmc_client.py lines 43-46). The
record argument is the result of root.find(".//record"); when it is None,
the first iteration raises AttributeError on record.find, and when no
iteration runs the loop falls through to return None. A found link without
an href attribute raises KeyError on link.attrib["href"]. -/
def resolveLoop (record : Option Xml) : List String → Except PyErr (Option String)
  | [] => .ok none
  | fmt :: rest =>
      match record with
      | none => .error .attributeError
      | some rec =>
          match rec.findDesc (isLink fmt) with
          | some link =>
              match link.attr "href" with
              | some href => .ok (some href)
              | none => .error .keyError
          | none => resolveLoop record rest

/-- Shallow embedding of get_article_download_url after the database-mode
guard and the HTTP call: acts on the parsed response body. -/
def get_article_download_url (root : Option Xml) (accepted_formats : List String) :
    Except PyErr (Option String) :=
  match root with
  | none => .ok none
  | some r =>
      match r.findChild "error" with
      | some _ => .ok none
      | none => resolveLoop (r.findDesc isRecord) accepted_formats

/-- The first link whose format matches the earliest entry of the
preference list for which such a link exists under the record node: the
selection rule the specification describes for the resolver. -/
def firstAcceptedLink (rec : Xml) : List String → Option Xml
  | [] => none
  | fmt :: rest =>
      match rec.findDesc (isLink fmt) with
      | some link => some link
      | none => firstAcceptedLink rec rest

/-- An open-access lookup response whose record holds only a tgz link. -/
def tgzOnlyRoot : Xml :=
  .elem "OA" [] none
    [.elem "records" [("returned-count", "1")] none
      [.elem "record" [("id", "PMC123")] none
        [.elem "link" [("format", "tgz"), ("href", "https://example.org/a.tar.gz")]
          none []]]]

/-- The record node of tgzOnlyRoot. -/
def tgzOnlyRecord : Xml :=
  .elem "record" [("id", "PMC123")] none
    [.elem "link" [("format", "tgz"), ("href", "https://example.org/a.tar.gz")]
      none []]

example : tgzOnlyRoot.findDesc isRecord = some tgzOnlyRecord := rfl

example : get_article_download_url (some tgzOnlyRoot) ["pdf", "tgz"] =
    .ok (some "https://example.org/a.tar.gz") := rfl

/-- The format loop agrees with the preference-order selection rule: when
every link reachable through an accepted format carries an href attribute,
the loop returns the href of the first link matching the earliest accepted
format present, and None when no accepted format has a link. -/
theorem resolveLoop_eq_firstAcceptedLink (rec : Xml) (accepted : List String)
    (hhref : ∀ fmt, fmt ∈ accepted →
      ((rec.findDesc (isLink fmt)).all fun l => (l.attr "href").isSome) = true) :
    resolveLoop (some rec) accepted =
      .ok ((firstAcceptedLink rec accepted).bind fun l => l.attr "href") := by
  induction accepted with
  | nil => rfl
  | cons fmt rest ih =>
    simp only [resolveLoop, firstAcceptedLink]
    rcases hfind : rec.findDesc (isLink fmt) with _ | link
    · exact ih (fun f hf => hhref f (List.mem_cons_of_mem fmt hf))
    · have hl := hhref fmt (List.mem_cons_self fmt rest)
      rw [hfind] at hl
      simp only [Option.all_some] at hl
      rcases hattr : link.attr "href" with _ | href
      · rw [hattr] at hl
        simp at hl
      · simp [hattr]

/-- Claim C6: given the parsed lookup response, the resolver returns None
when the root holds an error child; otherwise, when a record node exists
and its format links carry href attributes, it returns the href of the
first link matching the earliest accepted format for which a link exists
under the record, and None when no accepted format has a link; in
particular, a record with only a tgz link under preferences pdf then tgz
yields the tgz href. -/
theorem download_url_resolver_correct (root : Xml) (accepted : List String) :
    ((root.findChild "error").isSome = true →
      get_article_download_url (some root) accepted = .ok none)
    ∧ (∀ rec, root.findChild "error" = none → root.findDesc isRecord = some rec →
        (∀ fmt, fmt ∈ accepted →
          ((rec.findDesc (isLink fmt)).all fun l => (l.attr "href").isSome) = true) →
        get_article_download_url (some root) accepted =
          .ok ((firstAcceptedLink rec accepted).bind fun l => l.attr "href")
        ∧ (firstAcceptedLink rec accepted = none →
            get_article_download_url (some root) accepted = .ok none))
    ∧ get_article_download_url (some tgzOnlyRoot) ["pdf", "tgz"] =
        .ok (some "https://example.org/a.tar.gz") := by
  refine ⟨?_, ?_, rfl⟩
  · intro herr
    obtain ⟨e, he⟩ := Option.isSome_iff_exists.mp herr
    simp [get_article_download_url, he]
  · intro rec herr hrec hhref
    have hmain : get_article_download_url (some root) accepted =
        .ok ((firstAcceptedLink rec accepted).bind fun l => l.attr "href") := by
      simp only [get_article_download_url, herr, hrec]
      exact resolveLoop_eq_firstAcceptedLink rec accepted hhref
    refine ⟨hmain, ?_⟩
    intro hnone
    rw [hmain, hnone]
    rfl

/-- Witness for claim C6 at the tgz-only sample response. -/
theorem download_url_resolver_correct_witness :
    tgzOnlyRoot.findChild "error" = none ∧
      tgzOnlyRoot.findDesc isRecord = some tgzOnlyRecord ∧
      get_article_download_url (some tgzOnlyRoot) ["pdf", "tgz"] =
        .ok ((firstAcceptedLink tgzOnlyRecord ["pdf", "tgz"]).bind fun l => l.attr "href") :=
  ⟨rfl, rfl,
    ((download_url_resolver_correct tgzOnlyRoot ["pdf", "tgz"]).2.1 tgzOnlyRecord rfl rfl
      (by decide)).1⟩

/-- A parsed lookup response with neither an error child nor a record
descendant. -/
def noRecordRoot : Xml :=
  .elem "OA" [] none [.elem "records" [] none []]

/-- Claim C9 as stated fails on the code at one input: with an empty
accepted_formats list the for loop body never runs, so a response with
neither an error element nor a record node still returns None instead of
raising. -/
theorem resolver_no_record_empty_formats :
    get_article_download_url (some noRecordRoot) [] = .ok none ∧
      noRecordRoot.findChild "error" = none ∧
      noRecordRoot.findDesc isRecord = none :=
  ⟨rfl, rfl, rfl⟩

/-- The format loop returns None exactly when no accepted format has a
matching link under the record node. -/
theorem resolveLoop_ok_none_iff (rec : Xml) (accepted : List String) :
    resolveLoop (some rec) accepted = .ok none ↔
      ∀ fmt, fmt ∈ accepted → rec.findDesc (isLink fmt) = none := by
  induction accepted with
  | nil => simp [resolveLoop]
  | cons fmt rest ih =>
    simp only [resolveLoop]
    rcases hfind : rec.findDesc (isLink fmt) with _ | link
    · rw [ih]
      constructor
      · intro hall f hf
        rcases List.mem_cons.mp hf with rfl | hf'
        · exact hfind
        · exact hall f hf'
      · intro hall f hf
        exact hall f (List.mem_cons_of_mem fmt hf)
    · constructor
      · intro hcontra
        rcases hattr : link.attr "href" with _ | href <;>
          simp [hattr] at hcontra
      · intro hall
        have := hall fmt (List.mem_cons_self fmt rest)
        rw [hfind] at this
        exact absurd this (by simp)

/-- Claim C9 as amended: provided accepted_formats is nonempty, a response
that parses but contains neither an error child nor a record descendant
makes the resolver raise AttributeError, and the None-returning outcomes
are exactly an unparseable body, an error child, or a record present but
lacking every accepted format link. -/
theorem resolver_missing_record_raises (root : Option Xml) (accepted : List String)
    (hne : accepted ≠ []) :
    (∀ r, root = some r → r.findChild "error" = none →
        r.findDesc isRecord = none →
        get_article_download_url root accepted = .error .attributeError)
    ∧ (get_article_download_url root accepted = .ok none ↔
        (root = none
         ∨ (∃ r, root = some r ∧ (r.findChild "error").isSome = true)
         ∨ (∃ r rec, root = some r ∧ r.findChild "error" = none ∧
              r.findDesc isRecord = some rec ∧
              ∀ fmt, fmt ∈ accepted → rec.findDesc (isLink fmt) = none))) := by
  obtain ⟨fmt0, rest0, rfl⟩ : ∃ f r, accepted = f :: r := by
    rcases accepted with _ | ⟨f, r⟩
    · exact absurd rfl hne
    · exact ⟨f, r, rfl⟩
  constructor
  · rintro r rfl herr hrec
    simp only [get_article_download_url, herr, hrec]
    rfl
  · rcases root with _ | r
    · simp [get_article_download_url]
    · simp only [get_article_download_url]
      rcases herr : r.findChild "error" with _ | e
      · rcases hrec : r.findDesc isRecord with _ | rec
        · constructor
          · intro hcontra
            simp only [resolveLoop] at hcontra
            exact absurd hcontra (by simp)
          · rintro (h | ⟨r', hr', hsome⟩ | ⟨r', rec', hr', herr', hrec', -⟩)
            · exact absurd h (by simp)
            · obtain rfl : r = r' := by simpa using hr'
              rw [herr] at hsome
              exact absurd hsome (by simp)
            · obtain rfl : r = r' := by simpa using hr'
              rw [hrec] at hrec'
              exact absurd hrec' (by simp)
        · rw [resolveLoop_ok_none_iff]
          constructor
          · intro hall
            exact Or.inr (Or.inr ⟨r, rec, rfl, herr, hrec, hall⟩)
          · rintro (h | ⟨r', hr', hsome⟩ | ⟨r', rec', hr', herr', hrec', hall⟩)
            · exact absurd h (by simp)
            · obtain rfl : r = r' := by simpa using hr'
              rw [herr] at hsome
              exact absurd hsome (by simp)
            · obtain rfl : r = r' := by simpa using hr'
              rw [hrec] at hrec'
              obtain rfl : rec = rec' := by simpa using hrec'
              exact hall
      · constructor
        · intro
          exact Or.inr (Or.inl ⟨r, rfl, by rw [herr]; rfl⟩)
        · intro
          rfl

/-- Witness for the amended claim C9 at the record-free sample response
with the default preference list. -/
theorem resolver_missing_record_raises_witness :
    (["pdf", "tgz"] : List String) ≠ [] ∧
      get_article_download_url (some noRecordRoot) ["pdf", "tgz"] =
        .error .attributeError :=
  ⟨by decide,
    (resolver_missing_record_raises (some noRecordRoot) ["pdf", "tgz"] (by decide)).1
      noRecordRoot rfl rfl rfl⟩

/-! ## Publication date extraction

Shallow embedding of PubMedArticle._extract_publication_date
(src/pymed/article.py, lines 91-111). -/

/-- Modelled from the spec: get_content from pymed/helpers.py, which is
absent from src (only its import and call sites appear). Section 4.5
XmlMapper describes it as returning the text content of the first element
matching a relative path under a given subtree root, or the default when no
match exists, never throwing for a missing path. Calling it with a None
subtree root still raises AttributeError, the ordinary Python behaviour of
attribute access on None, which the spec leaves to the surrounding
try-except. -/
def get_content (element : Option Xml) (p : Xml → Bool) (dflt : Option String) :
    Except PyErr (Option String) :=
  match element with
  | none => .error .attributeError
  | some e =>
      match e.findDesc p with
      | none => .ok dflt
      | some m => .ok m.text

/-- Python int() applied to an optional string: None raises TypeError, a
string of decimal digits with an optional sign parses, anything else raises
ValueError. -/
def pyIntOfString (s : String) : Except PyErr Int :=
  match s.toList with
  | '-' :: ds =>
      if ds ≠ [] ∧ ds.all Char.isDigit then
        .ok (-(ds.foldl (fun acc c => acc * 10 + (c.toNat - 48)) 0 : Nat))
      else .error .valueError
  | ds =>
      if ds ≠ [] ∧ ds.all Char.isDigit then
        .ok ((ds.foldl (fun acc c => acc * 10 + (c.toNat - 48)) 0 : Nat) : Int)
      else .error .valueError

/-- Python int() on the result of get_content. -/
def pyInt (s : Option String) : Except PyErr Int :=
  match s with
  | none => .error .typeError
  | some str => pyIntOfString str

example : pyInt (some "2020") = .ok 2020 := by decide

example : pyInt (some "1") = .ok 1 := by decide

example : pyInt none = .error .typeError := by decide

example : pyInt (some "March") = .error .valueError := by decide

/-- A calendar date as produced by datetime.date. -/
structure PyDate where
  year : Int
  month : Int
  day : Int
deriving DecidableEq, Repr

/-- Gregorian leap year rule used by datetime.date validation. -/
def isLeapYear (y : Int) : Bool :=
  y % 4 == 0 && (y % 100 != 0 || y % 400 == 0)

/-- Days in a month, as validated by datetime.date. -/
def daysInMonth (y m : Int) : Int :=
  if m == 2 then (if isLeapYear y then 29 else 28)
  else if m == 4 || m == 6 || m == 9 || m == 11 then 30
  else 31

/-- datetime.date(year, month, day): validates the ranges MINYEAR..MAXYEAR,
1..12 and 1..days-in-month, raising ValueError otherwise. -/
def mkPyDate (y m d : Int) : Except PyErr PyDate :=
  if 1 ≤ y ∧ y ≤ 9999 ∧ 1 ≤ m ∧ m ≤ 12 ∧ 1 ≤ d ∧ d ≤ daysInMonth y m then
    .ok ⟨y, m, d⟩
  else .error .valueError

/-- Predicate for the path ".//PubMedPubDate[@PubStatus=pubmed]". -/
def isPubmedPubDate (c : Xml) : Bool :=
  c.tag == "PubMedPubDate" && c.attr "PubStatus" == some "pubmed"

/-- Predicate for the path ".//Year". -/
def isYear (c : Xml) : Bool := c.tag == "Year"

/-- Predicate for the path ".//Month". -/
def isMonth (c : Xml) : Bool := c.tag == "Month"

/-- Predicate for the path ".//Day". -/
def isDay (c : Xml) : Bool := c.tag == "Day"

/-- The try block of _extract_publication_date (article.py lines 95-106):
locate the pubmed PubMedPubDate node, parse Year with no default, Month and
Day with default "1", and build the date. Each step runs in order and the
first raised exception aborts the rest. -/
def pubdate_body (e : Xml) : Except PyErr PyDate :=
  let pd := e.findDesc isPubmedPubDate
  match get_content pd isYear none with
  | .error err => .error err
  | .ok ys =>
      match pyInt ys with
      | .error err => .error err
      | .ok y =>
          match get_content pd isMonth (some "1") with
          | .error err => .error err
          | .ok ms =>
              match pyInt ms with
              | .error err => .error err
              | .ok m =>
                  match get_content pd isDay (some "1") with
                  | .error err => .error err
                  | .ok ds =>
                      match pyInt ds with
                      | .error err => .error err
                      | .ok d => mkPyDate y m d

/-- _extract_publication_date with its catch-all except clause (article.py
lines 109-111): every raised exception degrades to an absent date. -/
def extract_publication_date (e : Xml) : Option PyDate :=
  (pubdate_body e).toOption

/-- Claim C7: date extraction never lets an exception past the mapper; a
missing PubMedPubDate node or a missing Year yields an absent date (year is
mandatory), any failing parse step yields an absent date, and a parseable
year with Month and Day absent defaults both to 1. -/
theorem extract_publication_date_soft (e : Xml) :
    (∀ err, pubdate_body e = .error err → extract_publication_date e = none)
    ∧ (e.findDesc isPubmedPubDate = none → extract_publication_date e = none)
    ∧ (∀ pd, e.findDesc isPubmedPubDate = some pd → pd.findDesc isYear = none →
        extract_publication_date e = none)
    ∧ (∀ pd yel y, e.findDesc isPubmedPubDate = some pd →
        pd.findDesc isYear = some yel → pyInt yel.text = .ok y →
        pd.findDesc isMonth = none → pd.findDesc isDay = none →
        1 ≤ y → y ≤ 9999 →
        extract_publication_date e = some ⟨y, 1, 1⟩) := by
  refine ⟨?_, ?_, ?_, ?_⟩
  · intro err herr
    simp [extract_publication_date, herr, Except.toOption]
  · intro hpd
    simp [extract_publication_date, pubdate_body, hpd, get_content, Except.toOption]
  · intro pd hpd hyear
    simp [extract_publication_date, pubdate_body, hpd, get_content, hyear, pyInt,
      Except.toOption]
  · intro pd yel y hpd hyel hy hm hd hy1 hy2
    have hymd : mkPyDate y 1 1 = .ok ⟨y, 1, 1⟩ := by
      rw [mkPyDate, if_pos]
      refine ⟨hy1, hy2, by norm_num, by norm_num, by norm_num, ?_⟩
      simp only [daysInMonth]
      norm_num
    have hone : pyInt (some "1") = .ok 1 := rfl
    simp [extract_publication_date, pubdate_body, hpd, get_content, hyel, hy, hm, hd,
      hone, hymd, Except.toOption]

/-- Witness for claim C7 at a concrete article element carrying only a
Year inside its pubmed PubMedPubDate. -/
theorem extract_publication_date_soft_witness :
    extract_publication_date
        (.elem "PubmedArticle" [] none
          [.elem "PubMedPubDate" [("PubStatus", "pubmed")] none
            [.elem "Year" [] (some "2020") []]]) = some ⟨2020, 1, 1⟩ :=
  (extract_publication_date_soft
      (.elem "PubmedArticle" [] none
        [.elem "PubMedPubDate" [("PubStatus", "pubmed")] none
          [.elem "Year" [] (some "2020") []]])).2.2.2
    (.elem "PubMedPubDate" [("PubStatus", "pubmed")] none
      [.elem "Year" [] (some "2020") []])
    (.elem "Year" [] (some "2020") []) 2020 rfl rfl (by decide) rfl rfl
    (by norm_num) (by norm_num)

/-! ## Article construction from field values and toDict

Shallow embedding of PubMedArticle.__init__ on the non-XML path and of
PubMedArticle.toDict (src/pymed/article.py, lines 31-47 and 143-147).
Objects with __slots__ are modelled as association lists from set slot
names to values; Python None is the value Option.none, so a slot holds an
Option α. -/

/-- The declared field names, PubMedArticle.__slots__ in order
(article.py lines 15-29). -/
def article_slots : List String :=
  ["pubmed_id", "title", "abstract", "keywords", "journal", "publication_date",
   "authors", "methods", "conclusions", "results", "copyrights", "doi", "xml"]

/-- The non-XML branch of PubMedArticle.__init__ (article.py lines 45-47):
each declared slot is set to kwargs.get(field, None). -/
def init_from_kwargs {α : Type} (kwargs : List (String × Option α)) :
    List (String × Option α) :=
  article_slots.map (fun f => (f, (kwargs.lookup f).getD none))

/-- Python attribute access self.__getattribute__(name) on a slotted
object: an unset slot raises AttributeError. -/
def article_getattr {α : Type} (obj : List (String × Option α)) (name : String) :
    Except PyErr (Option α) :=
  match obj.lookup name with
  | some v => .ok v
  | none => .error .attributeError

/-- The dict comprehension of PubMedArticle.toDict over a list of field
names, in order; the first unset slot aborts with AttributeError. -/
def toDictAux {α : Type} (obj : List (String × Option α)) :
    List String → Except PyErr (List (String × Option α))
  | [] => .ok []
  | f :: fs =>
      match article_getattr obj f with
      | .error err => .error err
      | .ok v =>
          match toDictAux obj fs with
          | .error err => .error err
          | .ok rest => .ok ((f, v) :: rest)

/-- PubMedArticle.toDict (article.py lines 143-147). -/
def article_toDict {α : Type} (obj : List (String × Option α)) :
    Except PyErr (List (String × Option α)) :=
  toDictAux obj article_slots

/-- Looking up a key in an association list built by pairing each list
entry with a function of it. -/
theorem lookup_map_pair {β : Type} (l : List String) (g : String → β) (f : String)
    (hf : f ∈ l) : (l.map (fun x => (x, g x))).lookup f = some (g f) := by
  induction l with
  | nil => exact absurd hf (List.not_mem_nil f)
  | cons x xs ih =>
    simp only [List.map_cons, List.lookup]
    rcases eq_or_ne f x with rfl | hne
    · simp
    · have hbeq : (f == x) = false := beq_eq_false_iff_ne.mpr hne
      simp only [hbeq]
      exact ih (by rcases List.mem_cons.mp hf with rfl | h; · exact absurd rfl hne
                   · exact h)

/-- toDictAux succeeds and reproduces the per-slot values whenever every
listed slot is set. -/
theorem toDictAux_of_all_set {α : Type} (obj : List (String × Option α))
    (g : String → Option α) :
    ∀ l : List String, (∀ f, f ∈ l → obj.lookup f = some (g f)) →
      toDictAux obj l = .ok (l.map (fun f => (f, g f))) := by
  intro l
  induction l with
  | nil => intro _; rfl
  | cons x xs ih =>
    intro hall
    simp only [toDictAux, article_getattr, hall x (List.mem_cons_self x xs),
      ih (fun f hf => hall f (List.mem_cons_of_mem x hf)), List.map_cons]

/-- Claim C8: an article built from field values (no XML element) and then
converted with toDict yields exactly the supplied field values, with every
slot not supplied mapped to None, for each declared field name. -/
theorem article_roundtrip {α : Type} (kwargs : List (String × Option α)) :
    article_toDict (init_from_kwargs kwargs) =
      .ok (article_slots.map (fun f => (f, (kwargs.lookup f).getD none)))
    ∧ ∀ f, f ∈ article_slots →
        ∃ d, article_toDict (init_from_kwargs kwargs) = .ok d ∧
          d.lookup f = some ((kwargs.lookup f).getD none) := by
  have hset : ∀ f, f ∈ article_slots →
      (init_from_kwargs kwargs).lookup f = some ((kwargs.lookup f).getD none) :=
    fun f hf => lookup_map_pair article_slots (fun x => (kwargs.lookup x).getD none) f hf
  have hmain := toDictAux_of_all_set (init_from_kwargs kwargs)
    (fun f => (kwargs.lookup f).getD none) article_slots hset
  refine ⟨hmain, fun f hf => ⟨_, hmain, ?_⟩⟩
  exact lookup_map_pair article_slots (fun x => (kwargs.lookup x).getD none) f hf

/-- Witness for claim C8: constructing from a single supplied field and
converting back yields that field, and the unsupplied pubmed_id is None. -/
theorem article_roundtrip_witness :
    article_toDict (init_from_kwargs [("title", some "X")]) =
        .ok (article_slots.map
          (fun f => (f, (([("title", some "X")].lookup f : Option (Option String))).getD none)))
    ∧ ("pubmed_id" ∈ article_slots ∧
        ∃ d, article_toDict (init_from_kwargs [("title", some "X")]) = .ok d ∧
          d.lookup "pubmed_id" = some none) :=
  ⟨(article_roundtrip [("title", some "X")]).1,
    by decide,
    by
      obtain ⟨d, hd, hl⟩ := (article_roundtrip [("title", some "X")]).2 "pubmed_id" (by decide)
      exact ⟨d, hd, by simpa using hl⟩⟩

/-! ## Book article to_dict and to_json

Shallow embedding of PubMedBookArticle (src/pymed/book.py). The class uses
__slots__, so an instance carries exactly the set slots; methods are
resolved through the class, whose defined method names are transcribed
below. -/

/-- PubMedBookArticle.__slots__ in order (book.py lines 14-28). -/
def book_slots : List String :=
  ["pubmed_id", "title", "abstract", "publication_date", "authors", "copyrights",
   "doi", "isbn", "language", "publication_type", "sections", "publisher",
   "publisher_location"]

/-- The method names the PubMedBookArticle class body defines
(book.py lines 30-151). -/
def book_methods : List String :=
  ["__init__", "_extract_pubmed_id", "_extract_title", "_extract_abstract",
   "_extract_copyrights", "_extract_doi", "_extract_isbn", "_extract_language",
   "_extract_publication_type", "_extract_publication_date", "_extract_publisher",
   "_extract_publisher_location", "_extract_authors", "_extract_sections",
   "_initialize_from_xml", "to_dict", "to_json"]

/-- Method resolution on a PubMedBookArticle instance: a name resolves iff
the class defines it. -/
def book_resolve_method (name : String) : Option String :=
  if book_methods.contains name then some name else none

/-- Python hasattr on a slotted instance: true when the slot is set or the
class defines a method of that name. -/
def book_hasattr {α : Type} (b : List (String × α)) (name : String) : Bool :=
  (b.lookup name).isSome || book_methods.contains name

/-- PubMedBookArticle.to_dict (book.py lines 131-138): every declared slot,
guarded by hasattr, with None for unset slots. -/
def book_to_dict {α : Type} (b : List (String × α)) : List (String × Option α) :=
  book_slots.map (fun f => (f, if book_hasattr b f then b.lookup f else none))

/-- PubMedBookArticle.to_json (book.py lines 140-151): its first step
evaluates self.toDict(), which requires resolving the attribute name
toDict. The serialization of the resulting dict is irrelevant here: the
branch where resolution succeeds renders the keys, but it is reachable only
if the class defined toDict. -/
def book_to_json {α : Type} (b : List (String × α)) : Except PyErr String :=
  match book_resolve_method "toDict" with
  | none => .error .attributeError
  | some _ => .ok (String.intercalate ", " ((book_to_dict b).map Prod.fst))

/-- Claim C10: on every PubMedBookArticle instance, however its slots are
populated, to_json raises AttributeError, because the class defines to_dict
but to_json invokes self.toDict(); to_dict itself succeeds and returns each
declared slot with its value, or None when unset. -/
theorem book_to_json_raises {α : Type} (b : List (String × α)) :
    book_to_json b = .error .attributeError
    ∧ ∀ f, f ∈ book_slots → (book_to_dict b).lookup f = some (b.lookup f) := by
  constructor
  · rfl
  · intro f hf
    have hdisj : ∀ f, f ∈ book_slots → book_methods.contains f = false := by decide
    have hlk := lookup_map_pair book_slots
      (fun x => if book_hasattr b x then b.lookup x else none) f hf
    simp only [] at hlk
    show (book_slots.map
      (fun x => (x, if book_hasattr b x then b.lookup x else none))).lookup f =
        some (b.lookup f)
    rw [hlk]
    rcases hbf : b.lookup f with _ | v
    · simp [book_hasattr, hbf, hdisj f hf]
    · simp [book_hasattr, hbf]

/-- Witness for claim C10 at a concrete instance with one set slot. -/
theorem book_to_json_raises_witness :
    book_to_json [("title", "X")] = .error .attributeError
    ∧ (book_to_dict [("title", "X")]).lookup "title" = some (some "X") :=
  ⟨(book_to_json_raises [("title", "X")]).1,
    by
      have := (book_to_json_raises [("title", "X")]).2 "title" (by decide)
      simpa using this⟩

end Pymed
